import Mathlib

/-
Verification of the fornjot tolerance-bounded approximation engine
(crates/fj-core geometry + approximation code).

The embedding follows the Rust source:
- `crates/fj-core/src/geometry/curves/circle.rs` (CircleApproxParams, circle polylines)
- `crates/fj-core/src/geometry/curve.rs` (GenPolyline for Circle, Line and Path)
- `crates/fj-core/src/geometry/surface.rs`, `surfaces/swept_curve.rs` (SweptCurve)
- `crates/fj-core/src/geometry/util/tri_mesh.rs` (surface-to-global conversion)
- `crates/fj-core/src/algorithms/approx/edge.rs` (half-edge approximation with caches)

Rust `f64`/`Scalar` arithmetic is modelled by real numbers; `Scalar` rejects NaN at
construction, so the real-number semantics matches the code on every input on which the
code is defined. Floor/ceil of scalars land on integral values, modelled by `Int.floor` /
`Int.ceil`.
-/

open Real

namespace Fornjot

/-- D-dimensional point / vector (`fj_math::Point<D>` / `fj_math::Vector<D>`),
coordinates modelled as real numbers. 1-dimensional curve-parameter points are plain `ℝ`. -/
abbrev Pt (n : ℕ) := Fin n → ℝ

/-- Modelled from the spec: `fj_math::Vector::magnitude` is not under `src/`; the spec's
vectors are "D-dimensional coordinate tuples", with the usual Euclidean magnitude. -/
noncomputable def magnitude {n : ℕ} (v : Pt n) : ℝ :=
  Real.sqrt (∑ i, v i ^ 2)

/-- A tolerance: a strictly positive scalar. `Tolerance::from_scalar` fails on any
non-positive value, so the invariant is carried by the type. -/
structure Tolerance where
  inner : ℝ
  pos : 0 < inner

/-- `fj_math::Circle<D>`: center plus the two radius vectors `a` and `b`. -/
structure Circle (D : ℕ) where
  center : Pt D
  a : Pt D
  b : Pt D

/-- Modelled from the spec: `fj_math::Circle::point_from_circle_coords` is not under
`src/`; the spec describes a circle by "center + two orthogonal basis vectors `a`, `b`
defining radius and plane", so the point at angle `t` is `center + cos t · a + sin t · b`. -/
noncomputable def Circle.point_from_circle_coords {D : ℕ} (c : Circle D) (t : ℝ) : Pt D :=
  c.center + Real.cos t • c.a + Real.sin t • c.b

/-- The radius used by `CircleApproxParams::new`: `circle.a().magnitude()`. -/
noncomputable def Circle.radius {D : ℕ} (c : Circle D) : ℝ :=
  magnitude c.a

/-- `fj_math::Line<D>`: origin plus direction. -/
structure Line (D : ℕ) where
  origin : Pt D
  direction : Pt D

/-- Modelled from the spec: `fj_math::Line::point_from_line_coords` is not under `src/`;
a line is "origin + direction", evaluated at parameter `t` as `origin + t · direction`.
This is the expression `self.origin() + self.direction() * point.t` used by
`GenPolyline for Line::line_segment_at` in `geometry/curve.rs`. -/
noncomputable def Line.point_from_line_coords {D : ℕ} (l : Line D) (t : ℝ) : Pt D :=
  l.origin + t • l.direction

/-- `Path<D>`: the tagged union over circles and lines (`geometry/path.rs`). -/
inductive Path (D : ℕ) where
  | circle (c : Circle D)
  | line (l : Line D)

/-- Evaluation of a path at a 1D curve parameter (`point_from_path_coords`), dispatching
to the matching variant. -/
noncomputable def Path.point_from_path_coords {D : ℕ} (p : Path D) (t : ℝ) : Pt D :=
  match p with
  | .circle c => c.point_from_circle_coords t
  | .line l => l.point_from_line_coords t

/-- `Scalar::TAU`. -/
noncomputable def TAU : ℝ := 2 * π

/-- Path approximation parameters for a circle (`curves/circle.rs`). -/
structure CircleApproxParams where
  increment : ℝ

/-- The full-circle vertex count computed by `CircleApproxParams::new`:
`Scalar::max(PI / (1 - tolerance/radius).acos(), 3.).ceil()`. The Rust value is a scalar
holding an integral value; we model it as the cast of the integer ceiling. -/
noncomputable def numVerticesToApproxFullCircle {D : ℕ} (c : Circle D) (tol : Tolerance) : ℝ :=
  ((⌈max (π / Real.arccos (1 - tol.inner / c.radius)) 3⌉ : ℤ) : ℝ)

/-- `CircleApproxParams::new`: `increment = TAU / num_vertices_to_approx_full_circle`. -/
noncomputable def CircleApproxParams.new {D : ℕ} (c : Circle D) (tol : Tolerance) :
    CircleApproxParams :=
  { increment := TAU / numVerticesToApproxFullCircle c tol }

/-- The line segment returned by `GenPolyline for Circle::line_segment_at`
(`curves/circle.rs`): both fields of `LineSegment`. -/
structure LineSegment (D : ℕ) where
  points : Pt D × Pt D
  points_line : ℝ × ℝ

/-- `GenPolyline for Circle::line_segment_at`: bracket the parameter in increment
units by floor and ceil, convert back to curve coordinates, then to circle points. -/
noncomputable def Circle.line_segment_at {D : ℕ} (c : Circle D) (point_curve : ℝ)
    (tol : Tolerance) : LineSegment D :=
  let params := CircleApproxParams.new c tol
  let t := point_curve / params.increment
  let pa := (⌊t⌋ : ℝ) * params.increment
  let pb := (⌈t⌉ : ℝ) * params.increment
  { points := (c.point_from_circle_coords pa, c.point_from_circle_coords pb)
    points_line := (pa, pb) }

/-- `GenPolyline for Line::line_segment_at`: the degenerate segment collapsing to the
exact evaluation of the parameter (`geometry/curve.rs`, lines 173-178). -/
noncomputable def Line.line_segment_at {D : ℕ} (l : Line D) (point : ℝ) : LineSegment D :=
  let p := l.point_from_line_coords point
  { points := (p, p), points_line := (point, point) }

/-- `Path::line_segment_at`: dispatch to the matching variant (`geometry/curve.rs`). -/
noncomputable def Path.line_segment_at {D : ℕ} (p : Path D) (point : ℝ) (tol : Tolerance) :
    LineSegment D :=
  match p with
  | .circle c => c.line_segment_at point tol
  | .line l => l.line_segment_at point

/-- The ascending run of integers `lo, lo+1, …, hi` produced by the
`iter::from_fn` loop of `CircleApproxParams::approx_circle` when the traversal
direction is non-negative; empty when `hi < lo`. -/
def intRangeAsc (lo hi : ℤ) : List ℤ :=
  (List.range (hi + 1 - lo).toNat).map (fun k : ℕ => lo + (k : ℤ))

/-- The descending run of integers `hi, hi-1, …, lo` produced by the loop when the
traversal direction is negative; empty when `hi < lo`. -/
def intRangeDesc (hi lo : ℤ) : List ℤ :=
  (List.range (hi + 1 - lo).toNat).map (fun k : ℕ => hi - (k : ℤ))

/-- `CircleApproxParams::approx_circle`: convert the boundary to increment units,
adjust the scanned range inward by one unit (`min.floor() + 1`, `max.ceil() - 1`),
then enumerate the integer increment indices in traversal order and convert each
back to a curve parameter (`increment * i`).

The `Sign::Zero` direction takes the same branch as `Sign::Positive`, exactly as in
the Rust `match`; in that case the two boundary points coincide and the adjusted
range is empty (`ceil x - 1 < floor x + 1`), so the loop yields nothing before its
zero step size could matter. -/
noncomputable def CircleApproxParams.approx_circle (params : CircleApproxParams)
    (boundary : ℝ × ℝ) : List ℝ :=
  let a := boundary.1 / params.increment
  let b := boundary.2 / params.increment
  let lo := ⌊min a b⌋ + 1
  let hi := ⌈max a b⌉ - 1
  if b < a then (intRangeDesc hi lo).map (fun i : ℤ => params.increment * (i : ℝ))
  else (intRangeAsc lo hi).map (fun i : ℤ => params.increment * (i : ℝ))

/-- `GenPolyline for Circle::generate_polyline`. -/
noncomputable def Circle.generate_polyline {D : ℕ} (c : Circle D) (boundary : ℝ × ℝ)
    (tol : Tolerance) : List ℝ :=
  (CircleApproxParams.new c tol).approx_circle boundary

/-- `GenPolyline for Line::generate_polyline` (`geometry/curve.rs`, lines 180-186):
`boundary.inner.into()` — the vector holding the boundary's own two points. -/
noncomputable def Line.generate_polyline {D : ℕ} (_l : Line D) (boundary : ℝ × ℝ) : List ℝ :=
  [boundary.1, boundary.2]

/-- `GenPolyline for Path::generate_polyline`: dispatch to the matching variant. -/
noncomputable def Path.generate_polyline {D : ℕ} (p : Path D) (boundary : ℝ × ℝ)
    (tol : Tolerance) : List ℝ :=
  match p with
  | .circle c => c.generate_polyline boundary tol
  | .line l => l.generate_polyline boundary

/-- `SweptCurve` (`geometry/surface.rs`): the u-axis path and the sweep vector v. -/
structure SweptCurve where
  u : Path 3
  v : Pt 3

/-- A 3D triangle (`fj_math::Triangle<3>`). -/
structure Triangle3 where
  a : Pt 3
  b : Pt 3
  c : Pt 3

/-- Modelled from the spec: `fj_math::Triangle::point_from_barycentric_coords` is not
under `src/`; the spec says to "evaluate the triangle's barycentric-weighted point",
the weighted combination of the three vertices. -/
noncomputable def Triangle3.point_from_barycentric_coords (t : Triangle3)
    (w : ℝ × ℝ × ℝ) : Pt 3 :=
  w.1 • t.a + w.2.1 • t.b + w.2.2 • t.c

/-- `GenTriMesh for SweptCurve::triangle_at` (`geometry/surface.rs`, lines 47-63):
offset the chord bracketing the u-coordinate by the sweep vector scaled by the
v-coordinate, synthesize `c = a + (b - a) / 2`, return uniform barycentric weights. -/
noncomputable def SweptCurve.triangle_at (s : SweptCurve) (point_surface : Pt 2)
    (tol : Tolerance) : Triangle3 × (ℝ × ℝ × ℝ) :=
  let seg := s.u.line_segment_at (point_surface 0) tol
  let a := seg.points.1 + point_surface 1 • s.v
  let b := seg.points.2 + point_surface 1 • s.v
  let c := a + (b - a) / 2
  (⟨a, b, c⟩, (1 / 3, 1 / 3, 1 / 3))

/-- `convert_point_surface_to_global` (`geometry/util/tri_mesh.rs`): look up the local
triangle and barycentric weights, then evaluate the barycentric-weighted point. -/
noncomputable def convert_point_surface_to_global (s : SweptCurve) (point : Pt 2)
    (tol : Tolerance) : Pt 3 :=
  let tb := s.triangle_at point tol
  tb.1.point_from_barycentric_coords tb.2

/-- `fj_math::Aabb<2>`: the 2D boundary handed to `generate_tri_mesh`. -/
structure Aabb2 where
  min : Pt 2
  max : Pt 2

/-- `GenTriMesh for SweptCurve::generate_tri_mesh` (`geometry/surface.rs`, lines 65-86):
the polyline of the u-path over `[boundary.min.u, boundary.max.u]`, emitted as a row at
`v = 0` chained with a row at `v = |sweep vector|`. -/
noncomputable def SweptCurve.generate_tri_mesh (s : SweptCurve) (boundary : Aabb2)
    (tol : Tolerance) : List (Pt 2) :=
  let points_curve := s.u.generate_polyline (boundary.min 0, boundary.max 0) tol
  points_curve.map (fun point => ![point, 0])
    ++ points_curve.map (fun point => ![point, magnitude s.v])

/-- `ApproxPoint<1>`: 1D curve-parameter local form paired with the 3D global form. -/
structure ApproxPoint1 where
  local_form : ℝ
  global_form : Pt 3

/-- `ApproxPoint<2>`: 2D surface-local form paired with the 3D global form. -/
structure ApproxPoint2 where
  local_form : Pt 2
  global_form : Pt 3

/-- A half-edge, carrying what `approx/edge.rs` reads from it: the curve handle, the
start-vertex handle, the surface-local path, the curve boundary, and the start
position in surface coordinates. Handles are stable identities, modelled as `ℕ`;
equality is by identity, as in the object graph. -/
structure HalfEdge where
  curve : ℕ
  start_vertex : ℕ
  path : Path 2
  boundary : ℝ × ℝ
  start_position : Pt 2

/-- `VertexApproxCache`: vertex handle to cached global position. -/
def VertexApproxCache := ℕ → Option (Fornjot.Pt 3)

/-- `CurveApproxCache`: curve handle plus boundary to cached approximation points. -/
def CurveApproxCache := ℕ × (ℝ × ℝ) → Option (List Fornjot.ApproxPoint1)

/-- `HalfEdgeApproxCache` (`approx/edge.rs`): the vertex cache and the curve cache. -/
structure HalfEdgeApproxCache where
  start_position : VertexApproxCache
  curve : CurveApproxCache

open Classical in
/-- Insertion into a cache map. -/
noncomputable def mapInsert {α β : Type} (m : α → Option β) (k : α) (v : β) :
    α → Option β :=
  fun x => if x = k then some v else m x

/-- The vertex-cache step of `approx_with_cache` (`approx/edge.rs`, lines 30-44): look
the start vertex up by handle; on a miss compute its global position through the
surface's coordinate-inversion routine, insert it and return it. -/
noncomputable def lookup_or_insert_start_position (cache : VertexApproxCache) (v : ℕ)
    (position_surface : Pt 2) (surface : SweptCurve) (tol : Tolerance) :
    Pt 3 × VertexApproxCache :=
  match cache v with
  | some position => (position, cache)
  | none =>
      let position_global := convert_point_surface_to_global surface position_surface tol
      (position_global, mapInsert cache v position_global)

/-- Modelled from the spec: the curve-level `approx_with_cache` implementation
(`algorithms/approx/curve.rs`) is not under `src/` (only its `CurveApproxPoints` data
type is); per spec §4.4 it "request[s] approximation of the half-edge's underlying
curve, restricted to the half-edge's boundary, via the curve cache (recursively
applying 4.1, with caching per curve handle + boundary)", pairing each generated
parameter point with its globally-positioned form. -/
noncomputable def approx_curve_with_cache (curve : ℕ) (path : Path 2)
    (surface : SweptCurve) (boundary : ℝ × ℝ) (tol : Tolerance)
    (cache : CurveApproxCache) : List ApproxPoint1 × CurveApproxCache :=
  match cache (curve, boundary) with
  | some points => (points, cache)
  | none =>
      let points := (path.generate_polyline boundary tol).map (fun t =>
        { local_form := t
          global_form :=
            convert_point_surface_to_global surface (path.point_from_path_coords t) tol })
      (points, mapInsert cache (curve, boundary) points)

/-- The result of approximating a half-edge. -/
structure HalfEdgeApprox where
  points : List ApproxPoint2

/-- `Approx for (&Handle<HalfEdge>, &SurfaceGeometry)::approx_with_cache`
(`approx/edge.rs`): the start vertex's cached-or-computed global position becomes the
first point, followed by the curve approximation mapped into surface coordinates via
the half-edge's path; the end vertex is not appended. -/
noncomputable def approx_with_cache (he : HalfEdge) (surface : SweptCurve)
    (tol : Tolerance) (cache : HalfEdgeApproxCache) :
    HalfEdgeApprox × HalfEdgeApproxCache :=
  let start_position_surface := he.start_position
  let sp := lookup_or_insert_start_position cache.start_position he.start_vertex
    start_position_surface surface tol
  let first : ApproxPoint2 := { local_form := start_position_surface, global_form := sp.1 }
  let ca := approx_curve_with_cache he.curve he.path surface he.boundary tol cache.curve
  let rest := ca.1.map (fun point =>
    { local_form := he.path.point_from_path_coords point.local_form
      global_form := point.global_form })
  (⟨first :: rest⟩, ⟨sp.2, ca.2⟩)

/-- The global position of the first (start-vertex) point of a half-edge approximation,
as produced by the vertex-cache step. -/
noncomputable def start_global (he : HalfEdge) (surface : SweptCurve) (tol : Tolerance)
    (cache : HalfEdgeApproxCache) : Pt 3 :=
  (lookup_or_insert_start_position cache.start_position he.start_vertex
    he.start_position surface tol).1

/-- The increment of the approximation parameters for a circle and tolerance
(`params.increment()`). -/
noncomputable def Circle.increment {D : ℕ} (c : Circle D) (tol : Tolerance) : ℝ :=
  (CircleApproxParams.new c tol).increment

/-- The circle built by `Circle::from_center_and_radius([0., 0.], 1.)`:
center at the origin, `a = [1, 0]`, `b = [0, 1]`. -/
noncomputable def unitCircle : Circle 2 :=
  ⟨![0, 0], ![1, 0], ![0, 1]⟩

/-- `Tolerance::from_scalar(1.)`. -/
def tol1 : Tolerance := ⟨1, one_pos⟩

/-- `Tolerance::from_scalar(0.5)`. -/
def tolHalf : Tolerance := ⟨0.5, by norm_num⟩

/-- `Tolerance::from_scalar(0.1)`. -/
def tolTenth : Tolerance := ⟨0.1, by norm_num⟩

/-- `Tolerance::from_scalar(0.01)`. -/
def tolHundredth : Tolerance := ⟨0.01, by norm_num⟩

/-- A radius-1 circle in 3D: center at the origin, `a = [1, 0, 0]`, `b = [0, 1, 0]`. -/
noncomputable def unitCircle3 : Circle 3 :=
  ⟨![0, 0, 0], ![1, 0, 0], ![0, 1, 0]⟩

/-- A cylinder surface: the 3D unit circle swept along the z-axis. -/
noncomputable def sweptCylinder : SweptCurve :=
  ⟨Path.circle unitCircle3, ![0, 0, 1]⟩

/-- A plane surface: the x-axis line swept along the z-axis. -/
noncomputable def sweptPlane : SweptCurve :=
  ⟨Path.line ⟨![0, 0, 0], ![1, 0, 0]⟩, ![0, 0, 1]⟩

instance : Inhabited ApproxPoint2 :=
  ⟨⟨fun _ => 0, fun _ => 0⟩⟩

/-- A half-edge on vertex handle 7, along the surface-local x-axis. -/
noncomputable def halfEdgeA : HalfEdge :=
  ⟨0, 7, Path.line ⟨![0, 0], ![1, 0]⟩, (0, 1), ![0, 0]⟩

/-- A sibling half-edge sharing start-vertex handle 7, on a different curve handle. -/
noncomputable def halfEdgeB : HalfEdge :=
  ⟨1, 7, Path.line ⟨![0, 1], ![1, 0]⟩, (0, 1), ![0, 1]⟩

/-- The fresh cache constructed at the start of a top-level approximation request. -/
def emptyHalfEdgeCache : HalfEdgeApproxCache :=
  ⟨fun _ => none, fun _ => none⟩

/-! ## Basic facts about the circle approximation parameters -/

theorem numVertices_ge_three {D : ℕ} (c : Circle D) (tol : Tolerance) :
    3 ≤ numVerticesToApproxFullCircle c tol := by
  unfold numVerticesToApproxFullCircle
  have h : (3 : ℤ) ≤ ⌈max (π / Real.arccos (1 - tol.inner / c.radius)) 3⌉ := by
    calc (3 : ℤ) = ⌈(3 : ℝ)⌉ := by norm_num
    _ ≤ _ := Int.ceil_le_ceil (le_max_right _ _)
  exact_mod_cast h

theorem increment_pos {D : ℕ} (c : Circle D) (tol : Tolerance) :
    0 < (CircleApproxParams.new c tol).increment := by
  have h3 := numVertices_ge_three c tol
  have hn : 0 < numVerticesToApproxFullCircle c tol := by linarith
  exact div_pos (by simp [TAU]; positivity) hn

/-! ## Facts about the integer index ranges -/

theorem mem_intRangeAsc {lo hi i : ℤ} :
    i ∈ intRangeAsc lo hi ↔ lo ≤ i ∧ i ≤ hi := by
  simp only [intRangeAsc, List.mem_map, List.mem_range]
  constructor
  · rintro ⟨k, hk, rfl⟩
    omega
  · rintro ⟨h1, h2⟩
    exact ⟨(i - lo).toNat, by omega, by omega⟩

theorem mem_intRangeDesc {lo hi i : ℤ} :
    i ∈ intRangeDesc hi lo ↔ lo ≤ i ∧ i ≤ hi := by
  simp only [intRangeDesc, List.mem_map, List.mem_range]
  constructor
  · rintro ⟨k, hk, rfl⟩
    omega
  · rintro ⟨h1, h2⟩
    exact ⟨(hi - i).toNat, by omega, by omega⟩

theorem intRangeAsc_pairwise (lo hi : ℤ) :
    (intRangeAsc lo hi).Pairwise (· < ·) := by
  unfold intRangeAsc
  refine List.Pairwise.map _ ?_ (List.pairwise_lt_range _)
  intro a b hab
  omega

theorem intRangeDesc_pairwise (hi lo : ℤ) :
    (intRangeDesc hi lo).Pairwise (· > ·) := by
  unfold intRangeDesc
  refine List.Pairwise.map _ ?_ (List.pairwise_lt_range _)
  intro a b hab
  omega

theorem intRangeDesc_eq_reverse (hi lo : ℤ) :
    intRangeDesc hi lo = (intRangeAsc lo hi).reverse := by
  unfold intRangeAsc intRangeDesc
  rcases le_or_lt lo hi with h | h
  · apply List.ext_getElem
    · simp
    · intro n h1 h2
      simp only [List.getElem_reverse, List.getElem_map, List.getElem_range,
        List.length_map, List.length_range] at h1 h2 ⊢
      omega
  · have hz : (hi + 1 - lo).toNat = 0 := by omega
    simp [hz]

theorem intRangeAsc_empty {lo hi : ℤ} (h : hi < lo) : intRangeAsc lo hi = [] := by
  unfold intRangeAsc
  have hz : (hi + 1 - lo).toNat = 0 := by omega
  simp [hz]

theorem circle_increment_pos {D : ℕ} (c : Circle D) (tol : Tolerance) :
    0 < c.increment tol :=
  increment_pos c tol

theorem approx_circle_mem (params : CircleApproxParams) (x y t : ℝ) :
    t ∈ params.approx_circle (x, y) ↔
      ∃ i : ℤ,
        ⌊min (x / params.increment) (y / params.increment)⌋ + 1 ≤ i ∧
        i ≤ ⌈max (x / params.increment) (y / params.increment)⌉ - 1 ∧
        t = params.increment * i := by
  unfold CircleApproxParams.approx_circle
  by_cases h : y / params.increment < x / params.increment
  · simp only [if_pos h, List.mem_map]
    constructor
    · rintro ⟨i, hi, rfl⟩
      rw [mem_intRangeDesc] at hi
      exact ⟨i, hi.1, hi.2, rfl⟩
    · rintro ⟨i, h1, h2, rfl⟩
      exact ⟨i, mem_intRangeDesc.mpr ⟨h1, h2⟩, rfl⟩
  · simp only [if_neg h, List.mem_map]
    constructor
    · rintro ⟨i, hi, rfl⟩
      rw [mem_intRangeAsc] at hi
      exact ⟨i, hi.1, hi.2, rfl⟩
    · rintro ⟨i, h1, h2, rfl⟩
      exact ⟨i, mem_intRangeAsc.mpr ⟨h1, h2⟩, rfl⟩

theorem approx_circle_asc_branch (params : CircleApproxParams) (x y : ℝ)
    (h : ¬ y / params.increment < x / params.increment) :
    params.approx_circle (x, y) =
      (intRangeAsc (⌊min (x / params.increment) (y / params.increment)⌋ + 1)
          (⌈max (x / params.increment) (y / params.increment)⌉ - 1)).map
        (fun i : ℤ => params.increment * (i : ℝ)) := by
  unfold CircleApproxParams.approx_circle
  simp only [if_neg h]

theorem approx_circle_desc_branch (params : CircleApproxParams) (x y : ℝ)
    (h : y / params.increment < x / params.increment) :
    params.approx_circle (x, y) =
      (intRangeDesc (⌈max (x / params.increment) (y / params.increment)⌉ - 1)
          (⌊min (x / params.increment) (y / params.increment)⌋ + 1)).map
        (fun i : ℤ => params.increment * (i : ℝ)) := by
  unfold CircleApproxParams.approx_circle
  simp only [if_pos h]

/-- C3: for a circle, tolerance and boundary `[a, b]` with `a ≠ b`, the generated
polyline consists of exactly the parameter points `increment * i` for the integer
increment indices `i` in the inward-adjusted range `[⌊min⌋ + 1, ⌈max⌉ - 1]`, in
traversal order (ascending for `a < b`, descending for `b < a`); every returned point
lies strictly between the endpoints and equals neither of them. -/
theorem generate_polyline_circle_exact {D : ℕ} (c : Circle D) (tol : Tolerance)
    (a b : ℝ) (hab : a ≠ b) :
    (∀ t, t ∈ c.generate_polyline (a, b) tol ↔
      ∃ i : ℤ,
        ⌊min (a / c.increment tol) (b / c.increment tol)⌋ + 1 ≤ i ∧
        i ≤ ⌈max (a / c.increment tol) (b / c.increment tol)⌉ - 1 ∧
        t = c.increment tol * i) ∧
    (a < b → (c.generate_polyline (a, b) tol).Pairwise (· < ·)) ∧
    (b < a → (c.generate_polyline (a, b) tol).Pairwise (· > ·)) ∧
    (∀ t ∈ c.generate_polyline (a, b) tol,
      min a b < t ∧ t < max a b ∧ t ≠ a ∧ t ≠ b) := by
  have hinc : 0 < (CircleApproxParams.new c tol).increment := increment_pos c tol
  have hpoly : c.generate_polyline (a, b) tol =
      (CircleApproxParams.new c tol).approx_circle (a, b) := rfl
  refine ⟨?_, ?_, ?_, ?_⟩
  · intro t
    exact approx_circle_mem (CircleApproxParams.new c tol) a b t
  · intro hlt
    have hd : ¬ b / (CircleApproxParams.new c tol).increment <
        a / (CircleApproxParams.new c tol).increment :=
      not_lt.mpr (le_of_lt ((div_lt_div_iff_of_pos_right hinc).mpr hlt))
    rw [hpoly, approx_circle_asc_branch _ _ _ hd, List.pairwise_map]
    refine (intRangeAsc_pairwise _ _).imp ?_
    intro i j hij
    exact mul_lt_mul_of_pos_left (by exact_mod_cast hij) hinc
  · intro hlt
    have hd : b / (CircleApproxParams.new c tol).increment <
        a / (CircleApproxParams.new c tol).increment :=
      (div_lt_div_iff_of_pos_right hinc).mpr hlt
    rw [hpoly, approx_circle_desc_branch _ _ _ hd, List.pairwise_map]
    refine (intRangeDesc_pairwise _ _).imp ?_
    intro i j hij
    exact mul_lt_mul_of_pos_left (by exact_mod_cast hij) hinc
  · intro t ht
    rw [hpoly, approx_circle_mem] at ht
    obtain ⟨i, h1, h2, rfl⟩ := ht
    set inc := (CircleApproxParams.new c tol).increment with hinc_def
    have hmin : inc * min (a / inc) (b / inc) = min a b := by
      rw [min_div_div_right hinc.le, mul_div_cancel₀ _ hinc.ne']
    have hmax : inc * max (a / inc) (b / inc) = max a b := by
      rw [max_div_div_right hinc.le, mul_div_cancel₀ _ hinc.ne']
    have hlo : min (a / inc) (b / inc) < (i : ℝ) := by
      have := Int.lt_floor_add_one (min (a / inc) (b / inc))
      have hle : ((⌊min (a / inc) (b / inc)⌋ + 1 : ℤ) : ℝ) ≤ (i : ℝ) := by
        exact_mod_cast h1
      push_cast at hle
      linarith
    have hhi : (i : ℝ) < max (a / inc) (b / inc) := by
      have := Int.ceil_lt_add_one (max (a / inc) (b / inc))
      have hle : ((i : ℤ) : ℝ) ≤ ((⌈max (a / inc) (b / inc)⌉ - 1 : ℤ) : ℝ) := by
        exact_mod_cast h2
      push_cast at hle
      linarith
    have hlo2 : min a b < inc * i := by
      calc min a b = inc * min (a / inc) (b / inc) := hmin.symm
      _ < inc * i := mul_lt_mul_of_pos_left hlo hinc
    have hhi2 : inc * i < max a b := by
      calc inc * (i : ℝ) < inc * max (a / inc) (b / inc) :=
        mul_lt_mul_of_pos_left hhi hinc
      _ = max a b := hmax
    refine ⟨hlo2, hhi2, ?_, ?_⟩
    · rcases le_total a b with h | h
      · rw [min_eq_left h] at hlo2
        exact ne_of_gt hlo2
      · rw [max_eq_left h] at hhi2
        exact ne_of_lt hhi2
    · rcases le_total a b with h | h
      · rw [max_eq_right h] at hhi2
        exact ne_of_lt hhi2
      · rw [min_eq_right h] at hlo2
        exact ne_of_gt hlo2

/-- Witness for C3: the boundary `[0, 1]` on the unit circle at tolerance 1 is a
non-degenerate boundary at which the characterization applies. -/
theorem generate_polyline_circle_exact_witness :
    ((0 : ℝ) ≠ 1) ∧
    ((∀ t, t ∈ unitCircle.generate_polyline (0, 1) tol1 ↔
      ∃ i : ℤ,
        ⌊min (0 / unitCircle.increment tol1) (1 / unitCircle.increment tol1)⌋ + 1 ≤ i ∧
        i ≤ ⌈max (0 / unitCircle.increment tol1) (1 / unitCircle.increment tol1)⌉ - 1 ∧
        t = unitCircle.increment tol1 * i) ∧
    ((0 : ℝ) < 1 → (unitCircle.generate_polyline (0, 1) tol1).Pairwise (· < ·)) ∧
    ((1 : ℝ) < 0 → (unitCircle.generate_polyline (0, 1) tol1).Pairwise (· > ·)) ∧
    (∀ t ∈ unitCircle.generate_polyline (0, 1) tol1,
      min (0 : ℝ) 1 < t ∧ t < max (0 : ℝ) 1 ∧ t ≠ 0 ∧ t ≠ 1)) :=
  ⟨by norm_num, generate_polyline_circle_exact unitCircle tol1 0 1 (by norm_num)⟩

theorem approx_circle_self_empty (params : CircleApproxParams) (x : ℝ) :
    params.approx_circle (x, x) = [] := by
  rw [approx_circle_asc_branch params x x (lt_irrefl _)]
  rw [intRangeAsc_empty, List.map_nil]
  have := Int.ceil_le_floor_add_one (min (x / params.increment) (x / params.increment))
  have heq : max (x / params.increment) (x / params.increment) =
      min (x / params.increment) (x / params.increment) := by
    simp
  rw [heq]
  omega

theorem approx_circle_reverse (params : CircleApproxParams)
    (hinc : 0 < params.increment) (a b : ℝ) :
    params.approx_circle (b, a) = (params.approx_circle (a, b)).reverse := by
  rcases lt_trichotomy a b with h | h | h
  · have hdiv : a / params.increment < b / params.increment :=
      (div_lt_div_iff_of_pos_right hinc).mpr h
    rw [approx_circle_desc_branch params b a hdiv,
      approx_circle_asc_branch params a b (not_lt.mpr hdiv.le),
      min_comm (b / params.increment), max_comm (b / params.increment),
      intRangeDesc_eq_reverse, List.map_reverse]
  · subst h
    rw [approx_circle_self_empty]
    rfl
  · have hdiv : b / params.increment < a / params.increment :=
      (div_lt_div_iff_of_pos_right hinc).mpr h
    rw [approx_circle_desc_branch params a b hdiv,
      approx_circle_asc_branch params b a (not_lt.mpr hdiv.le),
      min_comm (b / params.increment), max_comm (b / params.increment),
      intRangeDesc_eq_reverse, List.map_reverse, List.reverse_reverse]

/-- C5: for every curve (line or circle), tolerance and boundary `[a, b]`, the
polyline generated for the reversed boundary `[b, a]` is exactly the reverse of the
polyline generated for `[a, b]`. -/
theorem generate_polyline_reverse {D : ℕ} (p : Path D) (tol : Tolerance) (a b : ℝ) :
    p.generate_polyline (b, a) tol = (p.generate_polyline (a, b) tol).reverse := by
  cases p with
  | circle c =>
      exact approx_circle_reverse (CircleApproxParams.new c tol) (increment_pos c tol) a b
  | line l =>
      simp [Path.generate_polyline, Line.generate_polyline]

/-- C6 counterexample: for a line curve, the zero-length boundary `[0, 0]` does not
yield the empty point sequence - it yields the boundary's two (equal) points. -/
theorem zero_length_boundary_line_counterexample :
    (Path.line (⟨![0, 0], ![1, 0]⟩ : Line 2)).generate_polyline (0, 0) tol1 = [0, 0] ∧
    (Path.line (⟨![0, 0], ![1, 0]⟩ : Line 2)).generate_polyline (0, 0) tol1 ≠ [] := by
  constructor
  · rfl
  · simp [Path.generate_polyline, Line.generate_polyline]

/-- C6 amended: a zero-length boundary (both points equal) never signals an error:
for every circle it yields the empty point sequence, while for every line it yields
the sequence holding the boundary's two (equal) points. -/
theorem zero_length_boundary_amended {D : ℕ} (tol : Tolerance) (x : ℝ) :
    (∀ c : Circle D, (Path.circle c).generate_polyline (x, x) tol = []) ∧
    (∀ l : Line D, (Path.line l).generate_polyline (x, x) tol = [x, x]) := by
  constructor
  · intro c
    exact approx_circle_self_empty (CircleApproxParams.new c tol) x
  · intro l
    rfl

/-- C4 counterexample: for a line curve, `generate_polyline` on the boundary `[0, 1]`
returns the two boundary points, not the empty sequence. -/
theorem line_generate_polyline_counterexample :
    (Path.line (⟨![0, 0], ![1, 0]⟩ : Line 2)).generate_polyline (0, 1) tol1 = [0, 1] ∧
    (Path.line (⟨![0, 0], ![1, 0]⟩ : Line 2)).generate_polyline (0, 1) tol1 ≠ [] := by
  constructor
  · rfl
  · simp [Path.generate_polyline, Line.generate_polyline]

/-- C4 amended: for every line curve, 1D parameter point, boundary and tolerance,
`line_segment_at` returns two coincident points equal to the exact evaluation
`origin + direction * t` of that parameter; `generate_polyline` returns exactly the
boundary's own two points, in boundary order (not the empty sequence). -/
theorem line_degeneracy_amended {D : ℕ} (l : Line D) (tol : Tolerance) (t a b : ℝ) :
    ((Path.line l).line_segment_at t tol).points =
      (l.origin + t • l.direction, l.origin + t • l.direction) ∧
    (Path.line l).generate_polyline (a, b) tol = [a, b] := by
  exact ⟨rfl, rfl⟩

/-! ## Concrete evaluation helpers: the unit circle at various tolerances -/

theorem unitCircle_radius : unitCircle.radius = 1 := by
  unfold Circle.radius magnitude unitCircle
  rw [Fin.sum_univ_two]
  norm_num

theorem unitCircle3_radius : unitCircle3.radius = 1 := by
  unfold Circle.radius magnitude unitCircle3
  rw [Fin.sum_univ_three]
  norm_num

theorem numVertices_radius_one_tol1 {D : ℕ} (c : Circle D) (hr : c.radius = 1) :
    numVerticesToApproxFullCircle c tol1 = 3 := by
  unfold numVerticesToApproxFullCircle
  rw [hr]
  have h1 : (1 : ℝ) - tol1.inner / 1 = 0 := by
    show (1 : ℝ) - 1 / 1 = 0
    norm_num
  rw [h1, Real.arccos_zero]
  have h2 : π / (π / 2) = 2 := by
    field_simp
  rw [h2]
  have h3 : max (2 : ℝ) 3 = 3 := by norm_num
  rw [h3]
  norm_num

theorem increment_radius_one_tol1 {D : ℕ} (c : Circle D) (hr : c.radius = 1) :
    (CircleApproxParams.new c tol1).increment = 2 * π / 3 := by
  unfold CircleApproxParams.new TAU
  rw [numVertices_radius_one_tol1 c hr]

theorem increment_unitCircle_tol1 :
    (CircleApproxParams.new unitCircle tol1).increment = 2 * π / 3 :=
  increment_radius_one_tol1 unitCircle unitCircle_radius

theorem floor_ceil_inside_first_increment {x : ℝ} (h0 : 0 < x) (h1 : x < 2 * π / 3) :
    ⌊x / (2 * π / 3)⌋ = 0 ∧ ⌈x / (2 * π / 3)⌉ = 1 := by
  have hpos : (0 : ℝ) < 2 * π / 3 := by positivity
  constructor
  · rw [Int.floor_eq_zero_iff]
    exact ⟨div_nonneg h0.le hpos.le, (div_lt_one hpos).mpr h1⟩
  · rw [Int.ceil_eq_iff]
    constructor
    · push_cast
      simpa using div_pos h0 hpos
    · push_cast
      exact le_of_lt ((div_lt_one hpos).mpr h1)

/-- C1: For a fixed circle and tolerance, `line_segment_at` is sampling-independent:
two curve-parameter points whose increment-unit coordinates have the same floor and
the same ceil produce identical bracketing segments, with identical coordinate
values. -/
theorem line_segment_at_sampling_independent {D : ℕ} (c : Circle D) (tol : Tolerance)
    (p₁ p₂ : ℝ)
    (hfloor : ⌊p₁ / (CircleApproxParams.new c tol).increment⌋ =
      ⌊p₂ / (CircleApproxParams.new c tol).increment⌋)
    (hceil : ⌈p₁ / (CircleApproxParams.new c tol).increment⌉ =
      ⌈p₂ / (CircleApproxParams.new c tol).increment⌉) :
    c.line_segment_at p₁ tol = c.line_segment_at p₂ tol := by
  unfold Circle.line_segment_at
  simp only [hfloor, hceil]

/-- Witness for C1: the repository's own determinism test - the unit circle at
tolerance 1 sampled at parameters 0.2 and 0.3 (same increment interval) yields the
same bracketing segment. -/
theorem line_segment_at_sampling_independent_witness :
    (⌊(0.2 : ℝ) / (CircleApproxParams.new unitCircle tol1).increment⌋ =
        ⌊(0.3 : ℝ) / (CircleApproxParams.new unitCircle tol1).increment⌋ ∧
      ⌈(0.2 : ℝ) / (CircleApproxParams.new unitCircle tol1).increment⌉ =
        ⌈(0.3 : ℝ) / (CircleApproxParams.new unitCircle tol1).increment⌉) ∧
    unitCircle.line_segment_at 0.2 tol1 = unitCircle.line_segment_at 0.3 tol1 := by
  have hπ := Real.pi_gt_three
  have hlt : (2 : ℝ) < 2 * π / 3 := by nlinarith
  have h2 := floor_ceil_inside_first_increment (x := 0.2) (by norm_num) (by nlinarith)
  have h3 := floor_ceil_inside_first_increment (x := 0.3) (by norm_num) (by nlinarith)
  have hf : ⌊(0.2 : ℝ) / (CircleApproxParams.new unitCircle tol1).increment⌋ =
      ⌊(0.3 : ℝ) / (CircleApproxParams.new unitCircle tol1).increment⌋ := by
    rw [increment_unitCircle_tol1, h2.1, h3.1]
  have hc : ⌈(0.2 : ℝ) / (CircleApproxParams.new unitCircle tol1).increment⌉ =
      ⌈(0.3 : ℝ) / (CircleApproxParams.new unitCircle tol1).increment⌉ := by
    rw [increment_unitCircle_tol1, h2.2, h3.2]
  exact ⟨⟨hf, hc⟩,
    line_segment_at_sampling_independent unitCircle tol1 0.2 0.3 hf hc⟩

/-! ## Surface triangle mesh and coordinate inversion -/

/-- C9: `generate_tri_mesh` returns exactly two rows built from the polyline of the
u-generator curve restricted to `[boundary.min.u, boundary.max.u]`: first every
polyline u-coordinate at `v = 0`, then the same u-coordinates in the same order at
`v = |sweep vector|`; both rows project back to the same u-coordinates and every
emitted point carries one of the two v-values. -/
theorem generate_tri_mesh_rows (s : SweptCurve) (boundary : Aabb2) (tol : Tolerance) :
    s.generate_tri_mesh boundary tol =
      (s.u.generate_polyline (boundary.min 0, boundary.max 0) tol).map
          (fun point => ![point, 0]) ++
        (s.u.generate_polyline (boundary.min 0, boundary.max 0) tol).map
          (fun point => ![point, magnitude s.v]) ∧
    (s.generate_tri_mesh boundary tol).map (fun q => q 0) =
      s.u.generate_polyline (boundary.min 0, boundary.max 0) tol ++
        s.u.generate_polyline (boundary.min 0, boundary.max 0) tol ∧
    (∀ q ∈ (s.u.generate_polyline (boundary.min 0, boundary.max 0) tol).map
        (fun point : ℝ => (![point, 0] : Pt 2)), q 1 = 0) ∧
    (∀ q ∈ (s.u.generate_polyline (boundary.min 0, boundary.max 0) tol).map
        (fun point : ℝ => (![point, magnitude s.v] : Pt 2)), q 1 = magnitude s.v) := by
  refine ⟨rfl, ?_, ?_, ?_⟩
  · show ((s.u.generate_polyline (boundary.min 0, boundary.max 0) tol).map
        (fun point => ![point, 0]) ++
      (s.u.generate_polyline (boundary.min 0, boundary.max 0) tol).map
        (fun point => ![point, magnitude s.v])).map (fun q => q 0) = _
    rw [List.map_append, List.map_map, List.map_map]
    congr 1
    · refine List.map_congr_left ?_ |>.trans (List.map_id _)
      intro t ht
      simp
    · refine List.map_congr_left ?_ |>.trans (List.map_id _)
      intro t ht
      simp
  · intro q hq
    rw [List.mem_map] at hq
    obtain ⟨t, ht, rfl⟩ := hq
    simp
  · intro q hq
    rw [List.mem_map] at hq
    obtain ⟨t, ht, rfl⟩ := hq
    simp

/-- C8: `triangle_at` returns the chord of the u-generator curve at the queried
u-coordinate, both endpoints offset by the sweep vector scaled by the v-coordinate,
with third vertex `c = a + (b - a) / 2` and uniform barycentric weights; the
barycentric evaluation in `convert_point_surface_to_global` therefore equals the
chord midpoint `(a + b) / 2`, and whenever the chord degenerates (u-path a line, or
the u-coordinate an exact integer multiple of the circle's increment) it equals
exactly the generator curve evaluated at the u-coordinate, offset by the scaled sweep
vector. -/
theorem triangle_at_inversion_exact (s : SweptCurve) (p : Pt 2) (tol : Tolerance) :
    s.triangle_at p tol =
      (⟨(s.u.line_segment_at (p 0) tol).points.1 + p 1 • s.v,
        (s.u.line_segment_at (p 0) tol).points.2 + p 1 • s.v,
        ((s.u.line_segment_at (p 0) tol).points.1 + p 1 • s.v) +
          (((s.u.line_segment_at (p 0) tol).points.2 + p 1 • s.v) -
            ((s.u.line_segment_at (p 0) tol).points.1 + p 1 • s.v)) / 2⟩,
        (1 / 3, 1 / 3, 1 / 3)) ∧
    convert_point_surface_to_global s p tol =
      (((s.u.line_segment_at (p 0) tol).points.1 + p 1 • s.v) +
        ((s.u.line_segment_at (p 0) tol).points.2 + p 1 • s.v)) / 2 ∧
    (∀ l : Line 3, s.u = Path.line l →
      convert_point_surface_to_global s p tol =
        l.point_from_line_coords (p 0) + p 1 • s.v) ∧
    (∀ (c : Circle 3) (k : ℤ), s.u = Path.circle c →
      p 0 = c.increment tol * (k : ℝ) →
      convert_point_surface_to_global s p tol =
        c.point_from_circle_coords (p 0) + p 1 • s.v) := by
  have hmid : ∀ x y : Pt 3,
      (1 / 3 : ℝ) • x + (1 / 3 : ℝ) • y + (1 / 3 : ℝ) • (x + (y - x) / 2) =
        (x + y) / 2 := by
    intro x y
    funext i
    simp only [Pi.add_apply, Pi.smul_apply, Pi.sub_apply, Pi.div_apply, smul_eq_mul]
    have h2 : (2 : Pt 3) i = 2 := rfl
    rw [h2]
    ring
  have hbary : convert_point_surface_to_global s p tol =
      (((s.u.line_segment_at (p 0) tol).points.1 + p 1 • s.v) +
        ((s.u.line_segment_at (p 0) tol).points.2 + p 1 • s.v)) / 2 := by
    unfold convert_point_surface_to_global SweptCurve.triangle_at
      Triangle3.point_from_barycentric_coords
    exact hmid _ _
  refine ⟨rfl, hbary, ?_, ?_⟩
  · intro l hl
    rw [hbary, hl]
    show (l.point_from_line_coords (p 0) + p 1 • s.v +
      (l.point_from_line_coords (p 0) + p 1 • s.v)) / 2 = _
    funext i
    simp only [Pi.add_apply, Pi.div_apply]
    have h2 : (2 : Pt 3) i = 2 := rfl
    rw [h2]
    ring
  · intro c k hc hk
    have hinc : 0 < (CircleApproxParams.new c tol).increment := increment_pos c tol
    have hdiv : p 0 / (CircleApproxParams.new c tol).increment = (k : ℝ) := by
      rw [hk]
      show (CircleApproxParams.new c tol).increment * (k : ℝ) /
        (CircleApproxParams.new c tol).increment = (k : ℝ)
      rw [mul_div_cancel_left₀ _ hinc.ne']
    have hseg : (s.u.line_segment_at (p 0) tol).points =
        (c.point_from_circle_coords (p 0), c.point_from_circle_coords (p 0)) := by
      rw [hc]
      show ((c.line_segment_at (p 0) tol).points.1,
        (c.line_segment_at (p 0) tol).points.2) = _
      unfold Circle.line_segment_at
      simp only [hdiv, Int.floor_intCast, Int.ceil_intCast]
      have harg : ((k : ℤ) : ℝ) * (CircleApproxParams.new c tol).increment = p 0 := by
        push_cast
        rw [mul_comm]
        exact hk.symm
      rw [harg]
    rw [hbary]
    have h1 : (s.u.line_segment_at (p 0) tol).points.1 =
        c.point_from_circle_coords (p 0) := by rw [hseg]
    have h2 : (s.u.line_segment_at (p 0) tol).points.2 =
        c.point_from_circle_coords (p 0) := by rw [hseg]
    rw [h1, h2]
    funext i
    simp only [Pi.add_apply, Pi.div_apply]
    have h2i : (2 : Pt 3) i = 2 := rfl
    rw [h2i]
    ring

/-- Witness for C8: the cylinder surface (3D unit circle swept along the z-axis) at
tolerance 1, queried at surface point `(2π/3, 5)` — the u-coordinate is exactly one
increment, so coordinate inversion recovers the exact surface point. -/
theorem triangle_at_inversion_exact_witness :
    (sweptCylinder.u = Path.circle unitCircle3 ∧
      (![2 * π / 3, 5] : Pt 2) 0 = unitCircle3.increment tol1 * ((1 : ℤ) : ℝ)) ∧
    convert_point_surface_to_global sweptCylinder ![2 * π / 3, 5] tol1 =
      unitCircle3.point_from_circle_coords ((![2 * π / 3, 5] : Pt 2) 0) +
        (![2 * π / 3, 5] : Pt 2) 1 • sweptCylinder.v := by
  have h1 : sweptCylinder.u = Path.circle unitCircle3 := rfl
  have h2 : (![2 * π / 3, 5] : Pt 2) 0 = unitCircle3.increment tol1 * ((1 : ℤ) : ℝ) := by
    show (2 * π / 3 : ℝ) = unitCircle3.increment tol1 * ((1 : ℤ) : ℝ)
    unfold Circle.increment
    rw [increment_radius_one_tol1 unitCircle3 unitCircle3_radius]
    norm_num
  exact ⟨⟨h1, h2⟩,
    (triangle_at_inversion_exact sweptCylinder ![2 * π / 3, 5] tol1).2.2.2
      unitCircle3 1 h1 h2⟩

/-! ## Numeric bounds for the vertex-count examples -/

theorem cos_double_sin (x : ℝ) : Real.cos (2 * x) = 1 - 2 * Real.sin x ^ 2 := by
  have h1 := Real.cos_two_mul x
  have h2 := Real.sin_sq_add_cos_sq x
  linarith

theorem sin_pi_div_28_lt : Real.sin (π / 28) < 0.1122 := by
  have h1 : Real.sin (π / 28) < π / 28 := Real.sin_lt (by positivity)
  have h2 : π < 3.141593 := Real.pi_lt_d6
  nlinarith

theorem cos_pi_div_14_gt : (0.9748223 : ℝ) < Real.cos (π / 14) := by
  have h1 : Real.cos (π / 14) = 1 - 2 * Real.sin (π / 28) ^ 2 := by
    have h := cos_double_sin (π / 28)
    rw [show 2 * (π / 28) = π / 14 by ring] at h
    exact h
  have h2 : 0 < Real.sin (π / 28) := by
    apply Real.sin_pos_of_pos_of_lt_pi (by positivity)
    have := Real.pi_pos
    linarith [div_lt_self Real.pi_pos (by norm_num : (1 : ℝ) < 28)]
  have h3 := sin_pi_div_28_lt
  nlinarith

theorem cos_pi_div_seven_gt : (0.9 : ℝ) < Real.cos (π / 7) := by
  have h1 : Real.cos (π / 7) = 2 * Real.cos (π / 14) ^ 2 - 1 := by
    have h := Real.cos_two_mul (π / 14)
    rw [show 2 * (π / 14) = π / 7 by ring] at h
    exact h
  have h2 := cos_pi_div_14_gt
  nlinarith [sq_nonneg (Real.cos (π / 14) - 0.9748223)]

theorem cos_pi_div_six_lt : Real.cos (π / 6) < 0.9 := by
  rw [Real.cos_pi_div_six]
  have h : Real.sqrt 3 < 1.8 := by
    rw [show (1.8 : ℝ) = 1.8 from rfl]
    exact (Real.sqrt_lt' (by norm_num)).mpr (by norm_num)
  linarith

theorem cos_pi_div_23_gt : (0.99 : ℝ) < Real.cos (π / 23) := by
  have h1 : Real.cos (π / 23) = 1 - 2 * Real.sin (π / 46) ^ 2 := by
    have h := cos_double_sin (π / 46)
    rw [show 2 * (π / 46) = π / 23 by ring] at h
    exact h
  have h2 : Real.sin (π / 46) < 0.0683 := by
    have hs : Real.sin (π / 46) < π / 46 := Real.sin_lt (by positivity)
    have hπ : π < 3.141593 := Real.pi_lt_d6
    nlinarith
  have h3 : 0 < Real.sin (π / 46) := by
    apply Real.sin_pos_of_pos_of_lt_pi (by positivity)
    linarith [div_lt_self Real.pi_pos (by norm_num : (1 : ℝ) < 46)]
  nlinarith

theorem cos_pi_div_22_lt : Real.cos (π / 22) < 0.99 := by
  have h1 : Real.cos (π / 22) = 1 - 2 * Real.sin (π / 44) ^ 2 := by
    have h := cos_double_sin (π / 44)
    rw [show 2 * (π / 44) = π / 22 by ring] at h
    exact h
  have hx1 : (0.0713998 : ℝ) < π / 44 := by
    have : (3.141592 : ℝ) < π := Real.pi_gt_d6
    nlinarith
  have hx2 : π / 44 < 0.0714 := by
    have : π < 3.141593 := Real.pi_lt_d6
    nlinarith
  have hx0 : (0 : ℝ) < π / 44 := by positivity
  have hxsq : (π / 44) ^ 2 < 0.0051 := by nlinarith
  have hx3 : (π / 44) ^ 3 < 0.000365 := by nlinarith
  have hsin : π / 44 - (π / 44) ^ 3 / 4 < Real.sin (π / 44) := by
    apply Real.sin_gt_sub_cube hx0
    nlinarith [Real.pi_lt_d6]
  have hs : (0.0713085 : ℝ) < Real.sin (π / 44) := by nlinarith
  nlinarith [sq_nonneg (Real.sin (π / 44) - 0.0713085)]

/-! ## The arccos bracketing lemmas -/

theorem arccos_lt_of_cos_lt {x θ : ℝ} (hθ0 : 0 ≤ θ) (hx1 : x ≤ 1)
    (h : Real.cos θ < x) : Real.arccos x < θ := by
  by_contra hcon
  push_neg at hcon
  have hmono := Real.cos_le_cos_of_nonneg_of_le_pi hθ0 (Real.arccos_le_pi x) hcon
  have hm : (-1 : ℝ) ≤ x := le_of_lt (lt_of_le_of_lt (Real.neg_one_le_cos θ) h)
  rw [Real.cos_arccos hm hx1] at hmono
  linarith

theorem lt_arccos_of_cos_gt {x θ : ℝ} (hθπ : θ ≤ π) (hx0 : -1 ≤ x)
    (h : x < Real.cos θ) : θ < Real.arccos x := by
  by_contra hcon
  push_neg at hcon
  have hmono := Real.cos_le_cos_of_nonneg_of_le_pi (Real.arccos_nonneg x) hθπ hcon
  have hx1 : x ≤ 1 := le_of_lt (lt_of_lt_of_le h (Real.cos_le_one θ))
  rw [Real.cos_arccos hx0 hx1] at hmono
  linarith

theorem arccos_antitone {x y : ℝ} (h : x ≤ y) : Real.arccos y ≤ Real.arccos x := by
  rw [Real.arccos_eq_pi_div_two_sub_arcsin, Real.arccos_eq_pi_div_two_sub_arcsin]
  have := Real.monotone_arcsin h
  linarith

theorem arccos_09_bracket : π / 7 < Real.arccos 0.9 ∧ Real.arccos 0.9 < π / 6 := by
  constructor
  · apply lt_arccos_of_cos_gt
    · exact div_le_self Real.pi_pos.le (by norm_num)
    · norm_num
    · exact cos_pi_div_seven_gt
  · apply arccos_lt_of_cos_lt
    · positivity
    · norm_num
    · exact cos_pi_div_six_lt

theorem arccos_099_bracket : π / 23 < Real.arccos 0.99 ∧ Real.arccos 0.99 < π / 22 := by
  constructor
  · apply lt_arccos_of_cos_gt
    · exact div_le_self Real.pi_pos.le (by norm_num)
    · norm_num
    · exact cos_pi_div_23_gt
  · apply arccos_lt_of_cos_lt
    · positivity
    · norm_num
    · exact cos_pi_div_22_lt

theorem numVertices_radius_one_tolHalf {D : ℕ} (c : Circle D) (hr : c.radius = 1) :
    numVerticesToApproxFullCircle c tolHalf = 3 := by
  unfold numVerticesToApproxFullCircle
  rw [hr]
  have harg : (1 : ℝ) - tolHalf.inner / 1 = 0.5 := by
    show (1 : ℝ) - 0.5 / 1 = 0.5
    norm_num
  rw [harg]
  have hacos : Real.arccos 0.5 = π / 3 := by
    rw [show (0.5 : ℝ) = 1 / 2 by norm_num, ← Real.cos_pi_div_three]
    exact Real.arccos_cos (by positivity) (div_le_self Real.pi_pos.le (by norm_num))
  rw [hacos]
  have hdiv : π / (π / 3) = 3 := by
    field_simp
  rw [hdiv, max_self]
  norm_num

theorem numVertices_radius_one_tolTenth {D : ℕ} (c : Circle D) (hr : c.radius = 1) :
    numVerticesToApproxFullCircle c tolTenth = 7 := by
  unfold numVerticesToApproxFullCircle
  rw [hr]
  have harg : (1 : ℝ) - tolTenth.inner / 1 = 0.9 := by
    show (1 : ℝ) - 0.1 / 1 = 0.9
    norm_num
  rw [harg]
  obtain ⟨hA1, hA2⟩ := arccos_09_bracket
  have hA0 : 0 < Real.arccos 0.9 := lt_trans (by positivity) hA1
  have h6 : 6 < π / Real.arccos 0.9 := by
    rw [lt_div_iff hA0]
    nlinarith
  have h7 : π / Real.arccos 0.9 < 7 := by
    rw [div_lt_iff hA0]
    nlinarith
  have hmax : max (π / Real.arccos 0.9) 3 = π / Real.arccos 0.9 :=
    max_eq_left (by linarith)
  rw [hmax]
  have hceil : ⌈π / Real.arccos 0.9⌉ = 7 := by
    rw [Int.ceil_eq_iff]
    constructor
    · push_cast
      linarith
    · push_cast
      linarith
  rw [hceil]
  norm_num

theorem numVertices_radius_one_tolHundredth {D : ℕ} (c : Circle D) (hr : c.radius = 1) :
    numVerticesToApproxFullCircle c tolHundredth = 23 := by
  unfold numVerticesToApproxFullCircle
  rw [hr]
  have harg : (1 : ℝ) - tolHundredth.inner / 1 = 0.99 := by
    show (1 : ℝ) - 0.01 / 1 = 0.99
    norm_num
  rw [harg]
  obtain ⟨hA1, hA2⟩ := arccos_099_bracket
  have hA0 : 0 < Real.arccos 0.99 := lt_trans (by positivity) hA1
  have h22 : 22 < π / Real.arccos 0.99 := by
    rw [lt_div_iff hA0]
    nlinarith
  have h23 : π / Real.arccos 0.99 < 23 := by
    rw [div_lt_iff hA0]
    nlinarith
  have hmax : max (π / Real.arccos 0.99) 3 = π / Real.arccos 0.99 :=
    max_eq_left (by linarith)
  rw [hmax]
  have hceil : ⌈π / Real.arccos 0.99⌉ = 23 := by
    rw [Int.ceil_eq_iff]
    constructor
    · push_cast
      linarith
    · push_cast
      linarith
  rw [hceil]
  norm_num

theorem numVertices_antitone {D : ℕ} (c : Circle D) (t₁ t₂ : Tolerance)
    (h : t₁.inner ≤ t₂.inner) :
    numVerticesToApproxFullCircle c t₂ ≤ numVerticesToApproxFullCircle c t₁ := by
  unfold numVerticesToApproxFullCircle
  have hr0 : 0 ≤ c.radius := Real.sqrt_nonneg _
  rcases eq_or_lt_of_le hr0 with hr | hr
  · rw [← hr]
    simp
  · have hdivt : t₁.inner / c.radius ≤ t₂.inner / c.radius :=
      (div_le_div_iff_of_pos_right hr).mpr h
    have hA : Real.arccos (1 - t₁.inner / c.radius) ≤
        Real.arccos (1 - t₂.inner / c.radius) :=
      arccos_antitone (by linarith)
    have hA1pos : 0 < Real.arccos (1 - t₁.inner / c.radius) := by
      rw [Real.arccos_pos]
      have ht : 0 < t₁.inner / c.radius := div_pos t₁.pos hr
      linarith
    have hdiv : π / Real.arccos (1 - t₂.inner / c.radius) ≤
        π / Real.arccos (1 - t₁.inner / c.radius) := by
      gcongr
    have hm := max_le_max hdiv (le_refl (3 : ℝ))
    exact_mod_cast Int.ceil_le_ceil hm

/-- C2: the circle approximation parameters compute the full-circle vertex count as
`n = ceil(max(π / acos(1 - t/r), 3))` and the increment as `2π / n`; for radius 1,
tolerance 0.5 yields 3 vertices, 0.1 yields 7 and 0.01 yields 23; and for the same
circle a smaller tolerance never yields fewer vertices. -/
theorem circle_approx_params_spec :
    (∀ (D : ℕ) (c : Circle D) (tol : Tolerance),
      numVerticesToApproxFullCircle c tol =
        ((⌈max (π / Real.arccos (1 - tol.inner / c.radius)) 3⌉ : ℤ) : ℝ) ∧
      (CircleApproxParams.new c tol).increment =
        2 * π / numVerticesToApproxFullCircle c tol) ∧
    (∀ (D : ℕ) (c : Circle D), c.radius = 1 →
      numVerticesToApproxFullCircle c tolHalf = 3 ∧
      numVerticesToApproxFullCircle c tolTenth = 7 ∧
      numVerticesToApproxFullCircle c tolHundredth = 23) ∧
    (∀ (D : ℕ) (c : Circle D) (t₁ t₂ : Tolerance), t₁.inner ≤ t₂.inner →
      numVerticesToApproxFullCircle c t₂ ≤ numVerticesToApproxFullCircle c t₁) := by
  refine ⟨?_, ?_, ?_⟩
  · intro D c tol
    exact ⟨rfl, rfl⟩
  · intro D c hr
    exact ⟨numVertices_radius_one_tolHalf c hr, numVertices_radius_one_tolTenth c hr,
      numVertices_radius_one_tolHundredth c hr⟩
  · intro D c t₁ t₂ h
    exact numVertices_antitone c t₁ t₂ h

/-- Witness for C2: the unit circle has radius 1, and tolerance 0.1 is smaller than
tolerance 0.5, so the example vertex counts and the monotonicity instance apply. -/
theorem circle_approx_params_spec_witness :
    (unitCircle.radius = 1 ∧ tolTenth.inner ≤ tolHalf.inner) ∧
    (numVerticesToApproxFullCircle unitCircle tolHalf = 3 ∧
      numVerticesToApproxFullCircle unitCircle tolTenth = 7 ∧
      numVerticesToApproxFullCircle unitCircle tolHundredth = 23) ∧
    numVerticesToApproxFullCircle unitCircle tolHalf ≤
      numVerticesToApproxFullCircle unitCircle tolTenth := by
  have hr := unitCircle_radius
  have hle : tolTenth.inner ≤ tolHalf.inner := by
    show (0.1 : ℝ) ≤ 0.5
    norm_num
  exact ⟨⟨hr, hle⟩, circle_approx_params_spec.2.1 2 unitCircle hr,
    circle_approx_params_spec.2.2 2 unitCircle tolTenth tolHalf hle⟩

/-! ## Half-edge approximation through the shared cache -/

theorem lookup_or_insert_hit (cache : VertexApproxCache) (v : ℕ) (ps : Pt 2)
    (surface : SweptCurve) (tol : Tolerance) {p : Pt 3} (h : cache v = some p) :
    lookup_or_insert_start_position cache v ps surface tol = (p, cache) := by
  unfold lookup_or_insert_start_position
  rw [h]

theorem lookup_or_insert_miss (cache : VertexApproxCache) (v : ℕ) (ps : Pt 2)
    (surface : SweptCurve) (tol : Tolerance) (h : cache v = none) :
    lookup_or_insert_start_position cache v ps surface tol =
      (convert_point_surface_to_global surface ps tol,
        mapInsert cache v (convert_point_surface_to_global surface ps tol)) := by
  unfold lookup_or_insert_start_position
  rw [h]

/-- C10: a half-edge approximation is never empty: its point sequence is exactly the
pair (start vertex's surface-local position, its cached-or-computed global position)
followed by the curve approximation mapped through the half-edge's path - so at least
one point is always returned, even when the curve approximation contributes no
points, and nothing else (in particular not the end vertex) is appended. -/
theorem half_edge_approx_never_empty (he : HalfEdge) (surface : SweptCurve)
    (tol : Tolerance) (cache : HalfEdgeApproxCache) :
    (approx_with_cache he surface tol cache).1.points =
      { local_form := he.start_position
        global_form := start_global he surface tol cache } ::
        (approx_curve_with_cache he.curve he.path surface he.boundary tol
            cache.curve).1.map (fun point =>
          { local_form := he.path.point_from_path_coords point.local_form
            global_form := point.global_form }) ∧
    0 < (approx_with_cache he surface tol cache).1.points.length := by
  refine ⟨rfl, ?_⟩
  show 0 < (List.cons _ _).length
  simp

/-- C7: two half-edges sharing a start-vertex handle, approximated through the same
cache instance (in either order: the theorem is symmetric in the two half-edges),
yield bit-identical global coordinates for the shared start vertex; on a fresh miss
the first approximation computes the global position and inserts it, and the second
returns the cached value unchanged. -/
theorem shared_start_vertex_identical (he₁ he₂ : HalfEdge) (surface : SweptCurve)
    (tol : Tolerance) (cache : HalfEdgeApproxCache)
    (hv : he₁.start_vertex = he₂.start_vertex) :
    ((approx_with_cache he₂ surface tol
        (approx_with_cache he₁ surface tol cache).2).1.points.headI).global_form =
      ((approx_with_cache he₁ surface tol cache).1.points.headI).global_form ∧
    (cache.start_position he₁.start_vertex = none →
      ((approx_with_cache he₁ surface tol cache).1.points.headI).global_form =
        convert_point_surface_to_global surface he₁.start_position tol ∧
      (approx_with_cache he₁ surface tol cache).2.start_position he₂.start_vertex =
        some (((approx_with_cache he₁ surface tol cache).1.points.headI).global_form)) := by
  have hfst : ∀ (he : HalfEdge) (ca : HalfEdgeApproxCache),
      ((approx_with_cache he surface tol ca).1.points.headI).global_form =
        (lookup_or_insert_start_position ca.start_position he.start_vertex
          he.start_position surface tol).1 := fun _ _ => rfl
  have hsnd : ∀ (he : HalfEdge) (ca : HalfEdgeApproxCache),
      (approx_with_cache he surface tol ca).2.start_position =
        (lookup_or_insert_start_position ca.start_position he.start_vertex
          he.start_position surface tol).2 := fun _ _ => rfl
  rw [hfst, hfst, hsnd]
  cases hcase : cache.start_position he₁.start_vertex with
  | some p =>
      have hcase₂ : cache.start_position he₂.start_vertex = some p := hv ▸ hcase
      rw [lookup_or_insert_hit _ _ _ surface tol hcase,
        lookup_or_insert_hit _ _ _ surface tol hcase₂]
      exact ⟨rfl, fun hnone => absurd hnone (by simp)⟩
  | none =>
      rw [lookup_or_insert_miss _ _ _ surface tol hcase]
      have hins : mapInsert cache.start_position he₁.start_vertex
          (convert_point_surface_to_global surface he₁.start_position tol)
          he₂.start_vertex =
          some (convert_point_surface_to_global surface he₁.start_position tol) := by
        unfold mapInsert
        rw [if_pos hv.symm]
      rw [lookup_or_insert_hit _ _ _ surface tol hins]
      exact ⟨rfl, fun _ => ⟨rfl, hins⟩⟩

/-- Witness for C7: two sibling half-edges with shared start-vertex handle 7 on the
plane surface, approximated in sequence through one fresh cache. -/
theorem shared_start_vertex_identical_witness :
    (halfEdgeA.start_vertex = halfEdgeB.start_vertex ∧
      emptyHalfEdgeCache.start_position halfEdgeA.start_vertex = none) ∧
    ((approx_with_cache halfEdgeB sweptPlane tol1
        (approx_with_cache halfEdgeA sweptPlane tol1 emptyHalfEdgeCache).2).1.points.headI).global_form =
      ((approx_with_cache halfEdgeA sweptPlane tol1
        emptyHalfEdgeCache).1.points.headI).global_form ∧
    ((approx_with_cache halfEdgeA sweptPlane tol1
        emptyHalfEdgeCache).1.points.headI).global_form =
      convert_point_surface_to_global sweptPlane halfEdgeA.start_position tol1 ∧
    (approx_with_cache halfEdgeA sweptPlane tol1
        emptyHalfEdgeCache).2.start_position halfEdgeB.start_vertex =
      some (((approx_with_cache halfEdgeA sweptPlane tol1
        emptyHalfEdgeCache).1.points.headI).global_form) := by
  have h := shared_start_vertex_identical halfEdgeA halfEdgeB sweptPlane tol1
    emptyHalfEdgeCache rfl
  exact ⟨⟨rfl, rfl⟩, h.1, h.2 rfl⟩

end Fornjot
